import Mathlib

/-!
Verification of the ingestion & retrieval pipeline of the Cornell-Law RAG
repository.  JavaScript strings are modelled as `List Char`; the keyed
record store is modelled as explicit state passing over lists of rows;
the opaque embedding collaborator is a parameter `embedFn`; floating-point
numbers appear only in the cosine-similarity scorer and are modelled as
real numbers there.
-/

namespace LegalRag

/-- The JS whitespace class `\s` (ASCII part: space, tab, newline, carriage
return, vertical tab, form feed; the rarely-occurring Unicode space
code points are outside the model). -/
def isWs (c : Char) : Bool :=
  c == ' ' || c == '\t' || c == '\n' || c == '\r' || c == '\x0b' || c == '\x0c'

/-- JS `String.prototype.trim`: drop whitespace from both ends. -/
def trim (l : List Char) : List Char :=
  ((l.dropWhile isWs).reverse.dropWhile isWs).reverse

/-- The two-newline separator used between a title and its first chunk body. -/
def nl2 : List Char := ['\n', '\n']

/-! ## chunkText (src/lib/embeddings.ts)

`chunkText(text, chunkSize = 1000, chunkOverlap = 200)` is a `while` loop
pushing `text.slice(start, end).trim()` with `end = min(start + size, len)`
and, when `end < len`, `start = end - overlap`.  We first compute the list
of `(start, end)` index windows.  The source loop advances `start` only by
`size - overlap`, so it terminates exactly when `overlap < size`; the guard
below packages that termination condition (for `overlap ≥ size` the JS loop
never exits, and every claim conditions on `overlap < size`). -/

def chunkSpansAux (size overlap : Nat) : Nat → Nat → Nat → List (Nat × Nat)
  | 0, _, _ => []
  | fuel + 1, len, start =>
    if start < len ∧ overlap < size then
      if start + size < len then
        (start, start + size) :: chunkSpansAux size overlap fuel len (start + size - overlap)
      else
        [(start, len)]
    else []

/-- All index windows produced by the `chunkText` loop.  When
`overlap < size` each iteration advances `start` by at least one, so
`len + 1` units of fuel are never exhausted (proved below). -/
def chunkTextSpans (len size overlap : Nat) : List (Nat × Nat) :=
  chunkSpansAux size overlap (len + 1) len 0

/-- JS `text.slice(s, e)` for `0 ≤ s ≤ e ≤ len`. -/
def sliceList (text : List Char) (s e : Nat) : List Char :=
  (text.drop s).take (e - s)

/-- Model of `chunkText` from src/lib/embeddings.ts: one trimmed slice per window. -/
def chunkText (text : List Char) (size overlap : Nat) : List (List Char) :=
  (chunkTextSpans text.length size overlap).map (fun p => trim (sliceList text p.1 p.2))

/-- Model of `chunkText` at its default parameters `chunkSize = 1000`, `chunkOverlap = 200`. -/
def chunkTextDefault (text : List Char) : List (List Char) :=
  chunkText text 1000 200

/-! ## Change detector (src/lib/change-detector.ts) -/

/-- Scraper page metadata (src/lib/scraper.ts `ScrapedContent.metadata`). -/
structure ScrapedMeta where
  sectionNumber : Option String
  chapterNumber : Option String
  lastModified : Option String
deriving DecidableEq

/-- Model of `ScrapedContent` from src/lib/scraper.ts. -/
structure ScrapedContent where
  url : String
  title : List Char
  content : List Char
  contentHash : String
  links : List String
  metadata : ScrapedMeta
deriving DecidableEq

/-- The `changeType` field of a `ChangeDetectionResult`. -/
inductive ChangeType where
  | new
  | updated
  | unchanged
deriving DecidableEq

/-- Model of `ChangeDetectionResult` from src/lib/change-detector.ts: absent optional
fields are `none`. -/
structure ChangeDetectionResult where
  url : String
  changeType : ChangeType
  oldHash : Option String
  newHash : String
  resourceId : Option String
deriving DecidableEq

/-- One row of the `resources` table (id, sourceUrl, title, content, contentHash;
timestamp columns are not observed by any claim). -/
structure ResourceRow where
  id : String
  sourceUrl : String
  title : List Char
  content : List Char
  contentHash : String
deriving DecidableEq

/-- The lookup `select().from(resources).where(eq(resources.sourceUrl, url)).limit(1)`. -/
def queryBySourceUrl (rows : List ResourceRow) (url : String) : List ResourceRow :=
  (rows.filter (fun r => r.sourceUrl == url)).take 1

/-- The classification body of `ChangeDetector.detectSingleChange` applied to
the rows returned by the lookup. -/
def classifyRows (content : ScrapedContent) (rows : List ResourceRow) : ChangeDetectionResult :=
  match rows with
  | [] =>
    { url := content.url, changeType := .new, oldHash := none,
      newHash := content.contentHash, resourceId := none }
  | existing :: _ =>
    if existing.contentHash == content.contentHash then
      { url := content.url, changeType := .unchanged, oldHash := some existing.contentHash,
        newHash := content.contentHash, resourceId := some existing.id }
    else
      { url := content.url, changeType := .updated, oldHash := some existing.contentHash,
        newHash := content.contentHash, resourceId := some existing.id }

/-- Model of `ChangeDetector.detectSingleChange`: the awaited lookup either returns rows
or throws; a thrown error is caught and the content is assumed `new`. -/
def detectSingleChange (content : ScrapedContent)
    (lookup : Except String (List ResourceRow)) : ChangeDetectionResult :=
  match lookup with
  | .error _ =>
    { url := content.url, changeType := .new, oldHash := none,
      newHash := content.contentHash, resourceId := none }
  | .ok rows => classifyRows content rows

/-- Model of `ChangeDetector.detectChanges`: one result per scraped page, in order;
each page carries the outcome of its own store lookup. -/
def detectChanges (batch : List (ScrapedContent × Except String (List ResourceRow))) :
    List ChangeDetectionResult :=
  batch.map (fun p => detectSingleChange p.1 p.2)

/-! ## Legal content processor (LegalContentProcessor)

The processor's regular-expression operations are modelled as character-level
scanners over `List Char`, each matching the semantics of the corresponding
JS `String.replace`/`split` call. -/

/-- Does the list start with a numbered sub-paragraph marker, i.e. a match of
the regex `\(\d+\)` — a literal `(`, one or more digits, then `)`? -/
def isMarkerAt : List Char → Bool
  | '(' :: rest =>
    !(rest.takeWhile Char.isDigit).isEmpty &&
      (match rest.dropWhile Char.isDigit with
       | ')' :: _ => true
       | _ => false)
  | _ => false

/-- Scanner for `content.split(/(?=\(\d+\))/)`: cut immediately before every
marker occurrence.  A zero-width match at the start of the current piece is
skipped (ECMAScript split does not produce a leading empty piece for a
lookahead match at position 0), which the `cur ≠ []` test encodes. -/
def splitBeforeMarkersAux : List Char → List Char → List (List Char)
  | [], cur => [cur]
  | c :: rest, cur =>
    if !cur.isEmpty && isMarkerAt (c :: rest) then
      cur :: splitBeforeMarkersAux rest [c]
    else
      splitBeforeMarkersAux rest (cur ++ [c])

/-- Model of `content.split(/(?=\(\d+\))/)` from `chunkLegalText`. -/
def splitBeforeMarkers (content : List Char) : List (List Char) :=
  splitBeforeMarkersAux content []

/-- One element of a compiled regex pattern: a literal character, or the
regex wildcard `.` (which matches any character except a line terminator). -/
inductive PatChar where
  | lit (c : Char)
  | any
deriving DecidableEq

/-- Whether one pattern element matches one character. -/
def patCharMatches : PatChar → Char → Bool
  | .lit c, d => c == d
  | .any, d => !(d == '\n' || d == '\r' || d == '\u2028' || d == '\u2029')

/-- Match a pattern against a prefix of the input, returning the rest on success. -/
def matchPat : List PatChar → List Char → Option (List Char)
  | [], rest => some rest
  | _ :: _, [] => none
  | p :: ps, c :: rest => if patCharMatches p c then matchPat ps rest else none

/-- Fuelled global replace (JS `str.replace(pattern, repl)` with the `g` flag):
leftmost match, continue after the consumed match.  Every pattern used below
is non-empty, so fuel `length + 1` always suffices. -/
def replaceAllF (pat : List PatChar) (repl : List Char) : Nat → List Char → List Char
  | 0, s => s
  | _ + 1, [] => []
  | fuel + 1, c :: rest =>
    match matchPat pat (c :: rest) with
    | some rest2 => repl ++ replaceAllF pat repl fuel rest2
    | none => c :: replaceAllF pat repl fuel rest

/-- Global regex replace over the whole input. -/
def replaceAll (pat : List PatChar) (repl : List Char) (s : List Char) : List Char :=
  replaceAllF pat repl (s.length + 1) s

/-- The pattern `new RegExp(abbrev.replace('.', '\\.'), 'g')` built in
`splitIntoSentences`.  JS `String.replace` with a string pattern replaces only
the FIRST occurrence, so only the first dot of the abbreviation is escaped to
a literal; every later dot stays a regex wildcard. -/
def abbrevPatternAux : Bool → List Char → List PatChar
  | _, [] => []
  | seenDot, c :: rest =>
    if c == '.' then
      if seenDot then .any :: abbrevPatternAux true rest
      else .lit '.' :: abbrevPatternAux true rest
    else .lit c :: abbrevPatternAux seenDot rest

/-- Compile one abbreviation into its (partially escaped) pattern. -/
def abbrevPattern (ab : List Char) : List PatChar :=
  abbrevPatternAux false ab

/-- A pattern matching a string literally (used to restore placeholders:
`__ABBREV_i__` contains no regex metacharacters). -/
def litPattern (l : List Char) : List PatChar := l.map .lit

/-- The `legalAbbrevs` list of `splitIntoSentences`, in source order. -/
def legalAbbrevs : List (List Char) :=
  ["U.S.".data, "v.".data, "e.g.".data, "i.e.".data, "etc.".data,
   "Inc.".data, "Corp.".data, "LLC".data]

/-- The placeholder string for abbreviation index `i`. -/
def placeholderFor (i : Nat) : List Char :=
  "__ABBREV_".data ++ (toString i).data ++ "__".data

/-- Replace each abbreviation by its placeholder, in list order. -/
def protectAbbrevs (text : List Char) : List Char :=
  legalAbbrevs.enum.foldl
    (fun acc p => replaceAll (abbrevPattern p.2) (placeholderFor p.1) acc) text

/-- Restore each placeholder back to its abbreviation, in list order. -/
def restoreAbbrevs (text : List Char) : List Char :=
  legalAbbrevs.enum.foldl
    (fun acc p => replaceAll (litPattern (placeholderFor p.1)) p.2 acc) text

/-- The sentence-terminator class `[.!?]`. -/
def isSentPunct (c : Char) : Bool := c == '.' || c == '!' || c == '?'

/-- Scanner state for `split(/[.!?]+\s+/)`. -/
inductive SentSplitState where
  | normal (cur : List Char)
  | seenPunct (cur : List Char) (run : List Char)
  | inSep

/-- Scanner for `split(/[.!?]+\s+/)`: a separator is a maximal run of
sentence punctuation immediately followed by at least one whitespace
character; the separator is consumed. -/
def splitSentAux : SentSplitState → List Char → List (List Char)
  | .normal cur, [] => [cur]
  | .seenPunct cur run, [] => [cur ++ run]
  | .inSep, [] => [[]]
  | .normal cur, c :: rest =>
    if isSentPunct c then splitSentAux (.seenPunct cur [c]) rest
    else splitSentAux (.normal (cur ++ [c])) rest
  | .seenPunct cur run, c :: rest =>
    if isSentPunct c then splitSentAux (.seenPunct cur (run ++ [c])) rest
    else if isWs c then cur :: splitSentAux .inSep rest
    else splitSentAux (.normal (cur ++ run ++ [c])) rest
  | .inSep, c :: rest =>
    if isSentPunct c then splitSentAux (.seenPunct [] [c]) rest
    else if isWs c then splitSentAux .inSep rest
    else splitSentAux (.normal [c]) rest

/-- Model of `processedText.split(/[.!?]+\s+/)`. -/
def splitOnSentenceBoundaries (l : List Char) : List (List Char) :=
  splitSentAux (.normal []) l

/-- Model of `LegalContentProcessor.splitIntoSentences`: protect abbreviations, split
on sentence boundaries, restore and trim each piece, drop pieces of length
at most 20. -/
def splitIntoSentences (text : List Char) : List (List Char) :=
  ((splitOnSentenceBoundaries (protectAbbrevs text)).map
      (fun s => trim (restoreAbbrevs s))).filter
    (fun s => s.length > 20)

/-- The `'. '` appended after each packed sentence. -/
def dotSpace : List Char := ['.', ' ']

/-- The loop of `LegalContentProcessor.createSemanticChunks`, carrying the
current chunk under construction. -/
def createSemanticChunksAux (title : List Char) (maxChunkSize : Nat) :
    List (List Char) → List Char → List (List Char)
  | [], current =>
    if current.length > title.length + 10 then [trim current] else []
  | s :: rest, current =>
    if current.length + s.length + 2 > maxChunkSize ∧ current.length > title.length + 10 then
      trim current :: createSemanticChunksAux title maxChunkSize rest (title ++ nl2 ++ s ++ dotSpace)
    else
      createSemanticChunksAux title maxChunkSize rest (current ++ s ++ dotSpace)

/-- Model of `LegalContentProcessor.createSemanticChunks` (the source's default
`maxChunkSize` is 1200, passed explicitly at the call site below). -/
def createSemanticChunks (sentences : List (List Char)) (title : List Char)
    (maxChunkSize : Nat) : List (List Char) :=
  createSemanticChunksAux title maxChunkSize sentences (title ++ nl2)

/-- The `paragraphSections.forEach` loop of `chunkLegalText`: the first
section is prefixed `title\n\nsection`, later sections `title - section`;
blank sections are skipped and chunks of length at most 100 are dropped. -/
def structuralChunksAux (title : List Char) (i : Nat) : List (List Char) → List (List Char)
  | [] => []
  | s :: rest =>
    (if (trim s).isEmpty then []
     else
       let chunk := if i == 0 then title ++ nl2 ++ trim s else title ++ " - ".data ++ trim s
       if chunk.length > 100 then [chunk] else [])
      ++ structuralChunksAux title (i + 1) rest

/-- The structural-split strategy over the numbered paragraph sections. -/
def structuralChunks (sections : List (List Char)) (title : List Char) : List (List Char) :=
  structuralChunksAux title 0 sections

/-- Model of `chunkLegalText` before its fail-safe: structural split when more than one
numbered section exists, otherwise semantic chunking of the sentences. -/
def chunkLegalTextPre (content title : List Char) : List (List Char) :=
  let paragraphSections := splitBeforeMarkers content
  if paragraphSections.length > 1 then
    structuralChunks paragraphSections title
  else
    createSemanticChunks (splitIntoSentences content) title 1200

/-- Model of `LegalContentProcessor.chunkLegalText` including the fail-safe: when no
chunk was produced and the content is longer than 50 characters, emit the
title-plus-content chunk truncated to its first 2000 characters. -/
def chunkLegalText (content title : List Char) : List (List Char) :=
  let chunks := chunkLegalTextPre content title
  if chunks.isEmpty && content.length > 50 then
    [(title ++ nl2 ++ content).take 2000]
  else chunks

/-! ### cleanLegalText -/

/-- Model of `.replace(/\s+/g, ' ')`: collapse each whitespace run to a single space. -/
def collapseWsAux : Bool → List Char → List Char
  | _, [] => []
  | inRun, c :: rest =>
    if isWs c then
      if inRun then collapseWsAux true rest else ' ' :: collapseWsAux true rest
    else c :: collapseWsAux false rest

/-- The punctuation class `[.,;:)]` of the second replace. -/
def isClosePunct (c : Char) : Bool :=
  c == '.' || c == ',' || c == ';' || c == ':' || c == ')'

/-- Model of `.replace(/\s+([.,;:)])/g, '$1')`: drop a whitespace run that directly
precedes closing punctuation.  `pending` holds the whitespace read so far. -/
def rmWsBeforePunctAux (pending : List Char) : List Char → List Char
  | [] => pending
  | c :: rest =>
    if isWs c then rmWsBeforePunctAux (pending ++ [c]) rest
    else if isClosePunct c then c :: rmWsBeforePunctAux [] rest
    else pending ++ c :: rmWsBeforePunctAux [] rest

/-- The class `[([:]` of the third replace. -/
def isOpenPunct (c : Char) : Bool := c == '(' || c == '[' || c == ':'

/-- Model of `.replace(/([([:])\s+/g, '$1')`: drop a whitespace run that directly
follows opening punctuation. -/
def rmWsAfterOpenAux : Bool → List Char → List Char
  | _, [] => []
  | skipWs, c :: rest =>
    if skipWs && isWs c then rmWsAfterOpenAux true rest
    else c :: rmWsAfterOpenAux (isOpenPunct c) rest

/-- Model of `.replace(/ยง\s*/g, 'ยง ')`: the source's mojibake section symbol is the
two characters `ย` `ง`; each occurrence is normalised to exactly one
following space (the `\s*` may match emptily). -/
def secSymNormAux : Bool → List Char → List Char
  | _, [] => []
  | skipWs, 'ย' :: 'ง' :: rest2 =>
    if skipWs && isWs 'ย' then secSymNormAux true ('ง' :: rest2)
    else 'ย' :: 'ง' :: ' ' :: secSymNormAux true rest2
  | skipWs, c :: rest =>
    if skipWs && isWs c then secSymNormAux true rest
    else c :: secSymNormAux false rest

/-- Model of `.replace(/\.{3,}/g, '...')`: collapse runs of three or more periods. -/
def collapseDotsAux (n : Nat) : List Char → List Char
  | [] => List.replicate (if n ≥ 3 then 3 else n) '.'
  | c :: rest =>
    if c == '.' then collapseDotsAux (n + 1) rest
    else List.replicate (if n ≥ 3 then 3 else n) '.' ++ c :: collapseDotsAux 0 rest

/-- Model of `LegalContentProcessor.cleanLegalText`: the five replaces in source order,
then `trim`. -/
def cleanLegalText (text : List Char) : List Char :=
  trim (collapseDotsAux 0 (secSymNormAux false (rmWsAfterOpenAux false
    (rmWsBeforePunctAux [] (collapseWsAux false text)))))

/-- Model of `contentType` of a processed document. -/
inductive ContentType where
  | chapter
  | sectionPage
deriving DecidableEq

/-- Model of `ProcessedLegalContent.metadata`. -/
structure ProcessedMeta where
  sourceUrl : String
  sectionNumber : Option String
  chapterNumber : Option String
  contentType : ContentType
  lastModified : Option String
deriving DecidableEq

/-- Model of `ProcessedLegalContent` from the legal processor. -/
structure ProcessedLegalContent where
  title : List Char
  content : List Char
  chunks : List (List Char)
  metadata : ProcessedMeta
deriving DecidableEq

/-- JS `haystack.includes(needle)`: some position starts a literal match. -/
def listContainsSeg (needle : List Char) : List Char → Bool
  | [] => needle.isEmpty
  | c :: rest => (matchPat (litPattern needle) (c :: rest)).isSome || listContainsSeg needle rest

/-- Model of `LegalContentProcessor.processLegalText`. -/
def processLegalText (sc : ScrapedContent) : ProcessedLegalContent :=
  let contentType := if listContainsSeg "/chapter-".data sc.url.data then
      ContentType.chapter
    else ContentType.sectionPage
  let cleanContent := cleanLegalText sc.content
  { title := sc.title
    content := cleanContent
    chunks := chunkLegalText cleanContent sc.title
    metadata :=
      { sourceUrl := sc.url
        sectionNumber := sc.metadata.sectionNumber
        chapterNumber := sc.metadata.chapterNumber
        contentType := contentType
        lastModified := sc.metadata.lastModified } }

/-! ## Write path (populate-db: handleNewContent / handleUpdatedContent)

The Postgres tables are modelled as in-memory lists of rows; the embedding
collaborator is an opaque parameter `embedFn : List Char → α`.  Each
operation returns the new store state together with the list of write
events it performed, in order, so side-effect ordering is observable. -/

/-- One row of the `embeddings` table.  `α` is the opaque embedding payload
(the source stores `JSON.stringify` of the vector). -/
structure EmbeddingRow (α : Type) where
  resourceId : String
  content : List Char
  embedding : α
deriving DecidableEq

/-- The observable state of the record store. -/
structure DBState (α : Type) where
  resources : List ResourceRow
  embeddings : List (EmbeddingRow α)
deriving DecidableEq

/-- One write performed against the store, in program order. -/
inductive WriteEvent (α : Type) where
  | deleteEmbeddingsFor (resourceId : String)
  | updateResourceRec (resourceId : String)
  | insertResourceRec (resourceId : String)
  | insertEmbeddingRec (resourceId : String) (content : List Char) (embedding : α)
deriving DecidableEq

/-- Model of `ChangeDetector.cleanupOldEmbeddings`: delete every embedding row whose
`resourceId` matches. -/
def cleanupOldEmbeddings {α : Type} (rid : String) (st : DBState α) :
    DBState α × List (WriteEvent α) :=
  ({ st with embeddings := st.embeddings.filter (fun r => !(r.resourceId == rid)) },
   [.deleteEmbeddingsFor rid])

/-- Model of `ChangeDetector.updateResource`: overwrite content, title and hash of the
resource row with the given id (timestamps are outside the model). -/
def updateResourceOp {α : Type} (rid : String) (pc : ProcessedLegalContent)
    (hash : String) (st : DBState α) : DBState α × List (WriteEvent α) :=
  ({ st with
      resources := st.resources.map (fun r =>
        if r.id == rid then
          { r with content := pc.content, title := pc.title, contentHash := hash }
        else r) },
   [.updateResourceRec rid])

/-- Model of `createEmbeddingsForResource` from src/lib/embeddings.ts: re-chunk the
given content with `chunkText` at its defaults, embed each chunk, and insert
one `{resourceId, content, embedding}` row per chunk, in order. -/
def createEmbeddingsForResource {α : Type} (embedFn : List Char → α) (rid : String)
    (content : List Char) (st : DBState α) : DBState α × List (WriteEvent α) :=
  (chunkTextDefault content).foldl
    (fun acc ch =>
      ({ acc.1 with embeddings := acc.1.embeddings ++ [⟨rid, ch, embedFn ch⟩] },
       acc.2 ++ [.insertEmbeddingRec rid ch (embedFn ch)]))
    (st, [])

/-- The `for (const chunk of processedContent.chunks)` loop shared by
`handleNewContent` and `handleUpdatedContent`. -/
def embedChunksLoop {α : Type} (embedFn : List Char → α) (rid : String)
    (chunks : List (List Char)) (st : DBState α) : DBState α × List (WriteEvent α) :=
  chunks.foldl
    (fun acc c =>
      let r := createEmbeddingsForResource embedFn rid c acc.1
      (r.1, acc.2 ++ r.2))
    (st, [])

/-- The embedding rows the chunk loop inserts for the given legal chunks:
each legal chunk is re-split by `chunkText(1000, 200)` and yields one row
per slice. -/
def newEmbeddingRows {α : Type} (embedFn : List Char → α) (rid : String)
    (chunks : List (List Char)) : List (EmbeddingRow α) :=
  chunks.flatMap (fun c => (chunkTextDefault c).map (fun ch => ⟨rid, ch, embedFn ch⟩))

/-- The insert events the chunk loop performs, in order. -/
def insertEventsFor {α : Type} (embedFn : List Char → α) (rid : String)
    (chunks : List (List Char)) : List (WriteEvent α) :=
  chunks.flatMap (fun c => (chunkTextDefault c).map (fun ch => .insertEmbeddingRec rid ch (embedFn ch)))

/-- Model of `handleUpdatedContent` from populate-db: clean up old embeddings, update
the resource row, then insert fresh embeddings for every chunk. -/
def handleUpdatedContent {α : Type} (embedFn : List Char → α) (rid : String)
    (pc : ProcessedLegalContent) (hash : String) (st : DBState α) :
    DBState α × List (WriteEvent α) :=
  let r1 := cleanupOldEmbeddings rid st
  let r2 := updateResourceOp rid pc hash r1.1
  let r3 := embedChunksLoop embedFn rid pc.chunks r2.1
  (r3.1, r1.2 ++ r2.2 ++ r3.2)

/-- The resource row inserted by `handleNewContent` (`newId` models the id the
store generates and returns). -/
def mkResourceRow (newId : String) (pc : ProcessedLegalContent) (hash : String) : ResourceRow :=
  { id := newId, sourceUrl := pc.metadata.sourceUrl, title := pc.title,
    content := pc.content, contentHash := hash }

/-- Model of `handleNewContent` from populate-db: insert the resource row, then insert
embeddings for every chunk. -/
def handleNewContent {α : Type} (embedFn : List Char → α) (newId : String)
    (pc : ProcessedLegalContent) (hash : String) (st : DBState α) :
    DBState α × List (WriteEvent α) :=
  let st1 : DBState α := { st with resources := st.resources ++ [mkResourceRow newId pc hash] }
  let r := embedChunksLoop embedFn newId pc.chunks st1
  (r.1, .insertResourceRec newId :: r.2)

/-! ## Similarity search (findSimilarResources / cosineSimilarity)

The source computes over IEEE doubles; the model uses real numbers.  The
stored and query vectors share one dimension (a JS length mismatch would
produce `NaN` via an out-of-bounds read and is outside the model, as is
the `NaN` from a zero-magnitude vector, where the model's division returns
zero instead). -/

/-- Model of `cosineSimilarity(vecA, vecB)`: dot product over the fold of the pairs,
divided by the product of the two magnitudes. -/
noncomputable def cosineSimilarity (vecA vecB : List ℝ) : ℝ :=
  let dot := (vecA.zip vecB).foldl (fun s p => s + p.1 * p.2) 0
  let magA := Real.sqrt (vecA.foldl (fun s x => s + x * x) 0)
  let magB := Real.sqrt (vecB.foldl (fun s x => s + x * x) 0)
  dot / (magA * magB)

/-- An embedding row paired with its similarity score (the
`{...item, similarity}` object of `findSimilarResources`). -/
structure ScoredRow where
  row : EmbeddingRow (List ℝ)
  similarity : ℝ

/-- Score every stored embedding against the query vector. -/
noncomputable def scoreRows (q : List ℝ) (rows : List (EmbeddingRow (List ℝ))) :
    List ScoredRow :=
  rows.map (fun r => ⟨r, cosineSimilarity q r.embedding⟩)

/-- Model of `findSimilarResources`: score all rows, sort descending by similarity
(JS `Array.prototype.sort` is stable; insertion sort with the non-strict
descending comparison is its stable counterpart), take the first `limit`. -/
noncomputable def findSimilarResources (q : List ℝ) (rows : List (EmbeddingRow (List ℝ)))
    (limit : Nat) : List ScoredRow :=
  (List.insertionSort (fun a b => b.similarity ≤ a.similarity) (scoreRows q rows)).take limit

/-! ## Concrete instances used by witnesses and counterexamples -/

/-- A scraped page with hash `"h2"` at url `"u"`. -/
def wContent : ScrapedContent :=
  { url := "u", title := [], content := [], contentHash := "h2", links := [],
    metadata := { sectionNumber := none, chapterNumber := none, lastModified := none } }

/-- A stored resource row for url `"u"` whose hash differs from `wContent`. -/
def wRowDiff : ResourceRow :=
  { id := "id1", sourceUrl := "u", title := [], content := [], contentHash := "h1" }

/-- A stored resource row for url `"u"` whose hash equals `wContent`. -/
def wRowSame : ResourceRow :=
  { id := "id1", sourceUrl := "u", title := [], content := [], contentHash := "h2" }

/-- Two scraped pages sharing content and title but differing in url. -/
def wScrapeA : ScrapedContent :=
  { url := "https://example.org/a", title := "T".data, content := "Some body text.".data,
    contentHash := "h", links := [],
    metadata := { sectionNumber := none, chapterNumber := none, lastModified := none } }

/-- Same content and title as `wScrapeA`, different url. -/
def wScrapeB : ScrapedContent :=
  { url := "https://example.org/b", title := "T".data, content := "Some body text.".data,
    contentHash := "h", links := [],
    metadata := { sectionNumber := none, chapterNumber := none, lastModified := none } }

/-- The structural-priority test content of the spec. -/
def c4content : List Char := "(1) foo (2) bar".data

/-- 1250 copies of `a`: longer than the 1200-character budget, no numbered
markers, and a single sentence (no terminator followed by whitespace). -/
def c8content : List Char := List.replicate 1250 'a'

/-- Ten copies of `aaaa. `: 60 characters, no markers, and every sentence
fragment is at most 20 characters long, so sentence filtering leaves nothing. -/
def c9content : List Char := "aaaa. aaaa. aaaa. aaaa. aaaa. aaaa. aaaa. aaaa. aaaa. aaaa. ".data

/-- A processed document whose single legal chunk is 1200 characters long
(the semantic chunker's own budget), exceeding chunkText's 1000-character
window. -/
def pcBig : ProcessedLegalContent :=
  { title := "T".data, content := List.replicate 1200 'a',
    chunks := [List.replicate 1200 'a'],
    metadata := { sourceUrl := "u", sectionNumber := none, chapterNumber := none,
                  contentType := .sectionPage, lastModified := none } }

/-- A processed document with one short, already-trimmed legal chunk. -/
def pcSmall : ProcessedLegalContent :=
  { title := "T".data, content := "short legal text".data,
    chunks := ["short legal text".data],
    metadata := { sourceUrl := "u", sectionNumber := none, chapterNumber := none,
                  contentType := .sectionPage, lastModified := none } }

/-- Stored embedding `[1, 0]` (first in storage order). -/
noncomputable def rowA : EmbeddingRow (List ℝ) := ⟨"rA", "A".data, [1, 0]⟩

/-- Stored embedding `[0, 1]` (second in storage order). -/
noncomputable def rowB : EmbeddingRow (List ℝ) := ⟨"rB", "B".data, [0, 1]⟩

/-- Stored embedding `[1, 1]` (third in storage order). -/
noncomputable def rowC : EmbeddingRow (List ℝ) := ⟨"rC", "C".data, [1, 1]⟩

/-!
# Theorems
-/

/-- C1: change detection classifies every page as exactly one of three cases:
`new` without resourceId when no stored resource has the page's sourceUrl;
`unchanged` with the stored resourceId when the stored hash equals the new
hash; `updated` with resourceId, oldHash and newHash when they differ. -/
theorem change_classification (db : List ResourceRow) (content : ScrapedContent) :
    ((∀ r ∈ db, r.sourceUrl ≠ content.url) →
      detectSingleChange content (.ok (queryBySourceUrl db content.url)) =
        { url := content.url, changeType := .new, oldHash := none,
          newHash := content.contentHash, resourceId := none }) ∧
    (∀ r, queryBySourceUrl db content.url = [r] → r.contentHash = content.contentHash →
      detectSingleChange content (.ok (queryBySourceUrl db content.url)) =
        { url := content.url, changeType := .unchanged, oldHash := some r.contentHash,
          newHash := content.contentHash, resourceId := some r.id }) ∧
    (∀ r, queryBySourceUrl db content.url = [r] → r.contentHash ≠ content.contentHash →
      detectSingleChange content (.ok (queryBySourceUrl db content.url)) =
        { url := content.url, changeType := .updated, oldHash := some r.contentHash,
          newHash := content.contentHash, resourceId := some r.id }) := by
  refine ⟨fun h => ?_, fun r hq hh => ?_, fun r hq hh => ?_⟩
  · have hq : queryBySourceUrl db content.url = [] := by
      have : db.filter (fun r => r.sourceUrl == content.url) = [] := by
        rw [List.filter_eq_nil_iff]
        intro r hr
        simpa using h r hr
      simp [queryBySourceUrl, this]
    rw [hq]
    rfl
  · rw [hq]
    simp [detectSingleChange, classifyRows, hh]
  · rw [hq]
    simp [detectSingleChange, classifyRows, hh]

/-- Witness for C1 at three concrete stores: empty, matching-hash row,
differing-hash row. -/
theorem change_classification_witness :
    (detectSingleChange wContent (.ok (queryBySourceUrl [] wContent.url)) =
      { url := "u", changeType := .new, oldHash := none, newHash := "h2",
        resourceId := none }) ∧
    (detectSingleChange wContent (.ok (queryBySourceUrl [wRowSame] wContent.url)) =
      { url := "u", changeType := .unchanged, oldHash := some "h2", newHash := "h2",
        resourceId := some "id1" }) ∧
    (detectSingleChange wContent (.ok (queryBySourceUrl [wRowDiff] wContent.url)) =
      { url := "u", changeType := .updated, oldHash := some "h1", newHash := "h2",
        resourceId := some "id1" }) :=
  ⟨(change_classification [] wContent).1 (by simp),
   (change_classification [wRowSame] wContent).2.1 wRowSame (by decide) (by decide),
   (change_classification [wRowDiff] wContent).2.2 wRowDiff (by decide) (by decide)⟩

/-- C6: a store lookup that throws yields a `new` classification carrying the
fresh hash and no resourceId, and the batch still produces one result per
page. -/
theorem lookup_error_fail_open :
    (∀ (content : ScrapedContent) (e : String),
      detectSingleChange content (Except.error e) =
        { url := content.url, changeType := .new, oldHash := none,
          newHash := content.contentHash, resourceId := none }) ∧
    (∀ batch, (detectChanges batch).length = batch.length) :=
  ⟨fun _ _ => rfl, fun batch => by simp [detectChanges]⟩

/-- C7: chunking is a pure function of `(content, title)`: two processed pages
agreeing on content and title produce identical chunk sequences, whatever
their other fields. -/
theorem chunker_deterministic (s1 s2 : ScrapedContent)
    (hc : s1.content = s2.content) (ht : s1.title = s2.title) :
    (processLegalText s1).chunks = (processLegalText s2).chunks := by
  simp [processLegalText, hc, ht]

/-- Witness for C7: two pages identical up to their url chunk identically. -/
theorem chunker_deterministic_witness :
    (wScrapeA.content = wScrapeB.content ∧ wScrapeA.title = wScrapeB.title) ∧
    (processLegalText wScrapeA).chunks = (processLegalText wScrapeB).chunks :=
  ⟨⟨rfl, rfl⟩, chunker_deterministic wScrapeA wScrapeB rfl rfl⟩

/-- The per-chunk insertion fold appends one row and one event per slice. -/
theorem embedFold_spec {α : Type} (f : List Char → α) (rid : String)
    (chs : List (List Char)) (st : DBState α) (tr : List (WriteEvent α)) :
    chs.foldl
      (fun acc ch =>
        ({ acc.1 with embeddings := acc.1.embeddings ++ [⟨rid, ch, f ch⟩] },
         acc.2 ++ [.insertEmbeddingRec rid ch (f ch)]))
      (st, tr)
    = ({ st with embeddings := st.embeddings ++ chs.map (fun ch => ⟨rid, ch, f ch⟩) },
       tr ++ chs.map (fun ch => .insertEmbeddingRec rid ch (f ch))) := by
  induction chs generalizing st tr with
  | nil => simp
  | cons ch chs ih => simp [List.foldl_cons, ih]

/-- The function `createEmbeddingsForResource` appends one row per `chunkText` slice
of the content and reports the matching insert events. -/
theorem createEmbeddingsForResource_spec {α : Type} (f : List Char → α) (rid : String)
    (content : List Char) (st : DBState α) :
    createEmbeddingsForResource f rid content st
    = ({ st with
          embeddings := st.embeddings
            ++ (chunkTextDefault content).map (fun ch => ⟨rid, ch, f ch⟩) },
       (chunkTextDefault content).map (fun ch => .insertEmbeddingRec rid ch (f ch))) := by
  simp [createEmbeddingsForResource, embedFold_spec]

/-- Generalised form of the chunk loop with an arbitrary starting trace. -/
theorem embedChunksLoopGen {α : Type} (f : List Char → α) (rid : String)
    (chunks : List (List Char)) (st : DBState α) (tr : List (WriteEvent α)) :
    chunks.foldl
      (fun acc c =>
        let r := createEmbeddingsForResource f rid c acc.1
        (r.1, acc.2 ++ r.2))
      (st, tr)
    = ({ st with embeddings := st.embeddings ++ newEmbeddingRows f rid chunks },
       tr ++ insertEventsFor f rid chunks) := by
  induction chunks generalizing st tr with
  | nil => simp [newEmbeddingRows, insertEventsFor]
  | cons c cs ih =>
    rw [List.foldl_cons]
    have hstep :
        (let r := createEmbeddingsForResource f rid c (st, tr).1
         (r.1, (st, tr).2 ++ r.2))
        = ({ st with
              embeddings := st.embeddings
                ++ (chunkTextDefault c).map (fun ch => ⟨rid, ch, f ch⟩) },
           tr ++ (chunkTextDefault c).map
              (fun ch => WriteEvent.insertEmbeddingRec rid ch (f ch))) := by
      simp [createEmbeddingsForResource_spec]
    rw [hstep, ih]
    simp [newEmbeddingRows, insertEventsFor, List.flatMap_cons]

/-- The chunk loop appends exactly `newEmbeddingRows` and reports exactly
`insertEventsFor`, leaving the resources table untouched. -/
theorem embedChunksLoop_spec {α : Type} (f : List Char → α) (rid : String)
    (chunks : List (List Char)) (st : DBState α) :
    embedChunksLoop f rid chunks st
    = ({ st with embeddings := st.embeddings ++ newEmbeddingRows f rid chunks },
       insertEventsFor f rid chunks) := by
  simpa [embedChunksLoop] using embedChunksLoopGen f rid chunks st []

/-- Every row produced for the chunks of a document carries that document's
resourceId. -/
theorem newEmbeddingRows_resourceId {α : Type} (f : List Char → α) (rid : String)
    (chunks : List (List Char)) :
    ∀ r ∈ newEmbeddingRows f rid chunks, r.resourceId = rid := by
  intro r hr
  rw [newEmbeddingRows, List.mem_flatMap] at hr
  obtain ⟨c, _, hc⟩ := hr
  rw [List.mem_map] at hc
  obtain ⟨ch, _, rfl⟩ := hc
  rfl

/-- C2: after `handleUpdatedContent`, the embedding rows stored under the
updated resourceId are exactly the rows derived from the new content — no
old row survives — and the write trace is the deletion, then the resource
update, then the fresh inserts, in that order. -/
theorem updated_write_replaces_chunks {α : Type} (f : List Char → α) (rid : String)
    (pc : ProcessedLegalContent) (hash : String) (st : DBState α) :
    ((handleUpdatedContent f rid pc hash st).1.embeddings.filter
        (fun r => r.resourceId == rid)
      = newEmbeddingRows f rid pc.chunks) ∧
    ((handleUpdatedContent f rid pc hash st).2
      = .deleteEmbeddingsFor rid :: .updateResourceRec rid ::
          insertEventsFor f rid pc.chunks) := by
  have hembed :
      (handleUpdatedContent f rid pc hash st).1.embeddings
      = st.embeddings.filter (fun r => !(r.resourceId == rid))
          ++ newEmbeddingRows f rid pc.chunks := by
    simp [handleUpdatedContent, cleanupOldEmbeddings, updateResourceOp, embedChunksLoop_spec]
  constructor
  · rw [hembed, List.filter_append]
    have h1 : (st.embeddings.filter (fun r => !(r.resourceId == rid))).filter
        (fun r => r.resourceId == rid) = [] := by
      rw [List.filter_filter, List.filter_eq_nil_iff]
      intro r _
      simp
    have h2 : (newEmbeddingRows f rid pc.chunks).filter (fun r => r.resourceId == rid)
        = newEmbeddingRows f rid pc.chunks := by
      rw [List.filter_eq_self]
      intro r hr
      simp [newEmbeddingRows_resourceId f rid pc.chunks r hr]
    rw [h1, h2, List.nil_append]
  · simp [handleUpdatedContent, cleanupOldEmbeddings, updateResourceOp, embedChunksLoop_spec]

/-- At its defaults `chunkText` leaves a nonempty chunk of at most 1000
characters whole, up to the final trim. -/
theorem chunkTextDefault_small (c : List Char) (h0 : c ≠ []) (h1 : c.length ≤ 1000) :
    chunkTextDefault c = [trim c] := by
  have hlen : 0 < c.length := List.length_pos.mpr h0
  have h2 : ¬ (0 + 1000 < c.length) := by omega
  simp [chunkTextDefault, chunkText, chunkTextSpans, chunkSpansAux, hlen, h2, sliceList]

set_option maxRecDepth 40000 in
/-- C3 counterexample: `handleNewContent` does not persist a record whose
text is the legal chunk itself.  `pcBig`'s single legal chunk is 1200
characters long; `createEmbeddingsForResource` re-chunks it with
`chunkText(1000, 200)`, so two records are persisted — the trimmed slices of
1000 and 400 characters — and no persisted text equals the chunk. -/
theorem new_content_rechunks_counterexample :
    pcBig.chunks = [List.replicate 1200 'a'] ∧
    ((handleNewContent (fun _ => ()) "r1" pcBig "h" ⟨[], []⟩).1.embeddings.map
        (fun r => r.content)
      = [List.replicate 1000 'a', List.replicate 400 'a']) ∧
    ((handleNewContent (fun _ => ()) "r1" pcBig "h" ⟨[], []⟩).1.embeddings.all
        (fun r => !(r.content == List.replicate 1200 'a'))) = true := by
  refine ⟨rfl, by decide, by decide⟩

/-- C3 as amended: the resource row is inserted first; each legal chunk is
then re-split by `chunkText(1000, 200)` and one record per slice is
persisted, whose text is the trimmed slice.  The persisted text equals the
legal chunk itself exactly when the chunk is nonempty, at most 1000
characters and already trimmed. -/
theorem new_write_path {α : Type} (f : List Char → α) (newId : String)
    (pc : ProcessedLegalContent) (hash : String) (st : DBState α) :
    (handleNewContent f newId pc hash st).1.resources
        = st.resources ++ [mkResourceRow newId pc hash] ∧
    (handleNewContent f newId pc hash st).1.embeddings
        = st.embeddings ++ newEmbeddingRows f newId pc.chunks ∧
    (handleNewContent f newId pc hash st).2
        = .insertResourceRec newId :: insertEventsFor f newId pc.chunks ∧
    (∀ c ∈ pc.chunks, c ≠ [] → c.length ≤ 1000 → trim c = c →
      (⟨newId, c, f c⟩ : EmbeddingRow α) ∈ (handleNewContent f newId pc hash st).1.embeddings) := by
  refine ⟨?_, ?_, ?_, ?_⟩
  · simp [handleNewContent, embedChunksLoop_spec]
  · simp [handleNewContent, embedChunksLoop_spec]
  · simp [handleNewContent, embedChunksLoop_spec]
  · intro c hc h0 h1 ht
    have hmem : (⟨newId, c, f c⟩ : EmbeddingRow α) ∈ newEmbeddingRows f newId pc.chunks := by
      rw [newEmbeddingRows, List.mem_flatMap]
      refine ⟨c, hc, ?_⟩
      rw [chunkTextDefault_small c h0 h1, ht]
      simp
    simp [handleNewContent, embedChunksLoop_spec, hmem]

/-- Witness for the amended C3: a short already-trimmed chunk is persisted
verbatim. -/
theorem new_write_path_witness :
    ("short legal text".data ∈ pcSmall.chunks ∧ "short legal text".data ≠ [] ∧
      ("short legal text".data).length ≤ 1000 ∧
      trim "short legal text".data = "short legal text".data) ∧
    (⟨"r1", "short legal text".data, ()⟩ : EmbeddingRow Unit) ∈
      (handleNewContent (fun _ => ()) "r1" pcSmall "h" ⟨[], []⟩).1.embeddings :=
  ⟨⟨by decide, by decide, by decide, by decide⟩,
   (new_write_path (fun _ => ()) "r1" pcSmall "h" ⟨[], []⟩).2.2.2
     "short legal text".data (by decide) (by decide) (by decide) (by decide)⟩

/-- C4 counterexample: with the one-character title `T` both prefixed
segments of `(1) foo (2) bar` are at most 100 characters, so they are
dropped as noise and the chunker returns no chunk at all — not 2. -/
theorem structural_chunks_counterexample :
    chunkLegalText c4content ['T'] = [] ∧ (chunkLegalText c4content ['T']).length ≠ 2 := by
  refine ⟨by decide, by decide⟩

/-- C4 as amended: for every title of length at least 92 — large enough that
both title-prefixed segments clear the 100-character noise threshold —
chunking `(1) foo (2) bar` produces exactly 2 chunks, `title\n\n(1) foo`
and `title - (2) bar`; for shorter titles, prefixed segments of at most 100
characters are dropped as noise, leaving fewer chunks. -/
theorem structural_chunks_with_long_title (title : List Char) (h : 92 ≤ title.length) :
    chunkLegalText c4content title
      = [title ++ "\n\n(1) foo".data, title ++ " - (2) bar".data] := by
  have hsec : splitBeforeMarkers c4content = ["(1) foo ".data, "(2) bar".data] := by decide
  have htrim1 : trim "(1) foo ".data = "(1) foo".data := by decide
  have htrim2 : trim "(2) bar".data = "(2) bar".data := by decide
  have hl1 : (title ++ nl2 ++ "(1) foo".data).length > 100 := by
    simp [nl2]
    omega
  have hl2 : (title ++ " - ".data ++ "(2) bar".data).length > 100 := by
    simp
    omega
  simp [chunkLegalText, chunkLegalTextPre, hsec, structuralChunks, structuralChunksAux,
    htrim1, htrim2, hl1, hl2, nl2]
  rw [if_neg (by omega), if_pos (by omega), if_pos (by omega)]
  rfl

/-- Witness for the amended C4 at a 92-character title. -/
theorem structural_chunks_with_long_title_witness :
    92 ≤ (List.replicate 92 'X').length ∧
    chunkLegalText c4content (List.replicate 92 'X')
      = [List.replicate 92 'X' ++ "\n\n(1) foo".data,
         List.replicate 92 'X' ++ " - (2) bar".data] :=
  ⟨by decide, structural_chunks_with_long_title (List.replicate 92 'X') (by decide)⟩

/-- Trimming never lengthens a string. -/
theorem trim_length_le (l : List Char) : (trim l).length ≤ l.length := by
  have h1 := (List.dropWhile_sublist (l := l) isWs).length_le
  have h2 := (List.dropWhile_sublist (l := (l.dropWhile isWs).reverse) isWs).length_le
  simp only [trim, List.length_reverse] at *
  omega

/-- Size invariant of the semantic packing loop: every emitted chunk fits the
budget, or fits the current partial chunk, or exceeds the budget by no more
than one sentence plus the 12-character title-prefix overhead. -/
theorem semanticAux_bound (title : List Char) (M : Nat) :
    ∀ (sents : List (List Char)) (cur c : List Char),
      c ∈ createSemanticChunksAux title M sents cur →
      c.length ≤ cur.length ∨ c.length ≤ M ∨
        ∃ s ∈ sents, c.length ≤ title.length + 12 + s.length := by
  intro sents
  induction sents with
  | nil =>
    intro cur c hc
    simp only [createSemanticChunksAux] at hc
    split at hc
    · rw [List.mem_singleton] at hc
      subst hc
      exact Or.inl (trim_length_le cur)
    · simp at hc
  | cons s rest ih =>
    intro cur c hc
    simp only [createSemanticChunksAux] at hc
    by_cases hcond : cur.length + s.length + 2 > M ∧ cur.length > title.length + 10
    · rw [if_pos hcond] at hc
      rcases List.mem_cons.mp hc with h | h
      · subst h
        exact Or.inl (trim_length_le cur)
      · rcases ih _ _ h with h1 | h1 | ⟨t, ht, hb⟩
        · refine Or.inr (Or.inr ⟨s, List.mem_cons_self s rest, ?_⟩)
          simp [nl2, dotSpace] at h1
          omega
        · exact Or.inr (Or.inl h1)
        · exact Or.inr (Or.inr ⟨t, List.mem_cons_of_mem s ht, hb⟩)
    · rw [if_neg hcond] at hc
      have hor : cur.length + s.length + 2 ≤ M ∨ cur.length ≤ title.length + 10 := by
        rcases not_and_or.mp hcond with h | h
        · exact Or.inl (by omega)
        · exact Or.inr (by omega)
      rcases ih _ _ hc with h1 | h1 | ⟨t, ht, hb⟩
      · simp [dotSpace] at h1
        rcases hor with h2 | h2
        · exact Or.inr (Or.inl (by omega))
        · exact Or.inr (Or.inr ⟨s, List.mem_cons_self s rest, by omega⟩)
      · exact Or.inr (Or.inl h1)
      · exact Or.inr (Or.inr ⟨t, List.mem_cons_of_mem s ht, hb⟩)

set_option maxRecDepth 100000 in
/-- C8 counterexample: 1250 copies of `a` have no numbered markers, exceed
the 1200-character budget, and form a single sentence, so the chunker emits
exactly 1 chunk — not at least 2. -/
theorem semantic_fallback_counterexample :
    (splitBeforeMarkers c8content).length = 1 ∧
    1200 < c8content.length ∧
    (chunkLegalText c8content ['T']).length = 1 := by
  refine ⟨by decide, by decide, by decide⟩

/-- C8 as amended: for content with no numbered sub-paragraph markers that is
longer than the 1200-character budget (and a title prefix that fits the
budget), the chunker produces at least one chunk — a single over-long
sentence can make it exactly one — and every chunk the semantic fallback
emits exceeds the budget by at most the length of one of the sentences. -/
theorem semantic_fallback_amended (content title : List Char)
    (hm : (splitBeforeMarkers content).length ≤ 1)
    (hlen : 1200 < content.length)
    (ht : title.length + 12 ≤ 1200) :
    chunkLegalText content title ≠ [] ∧
    ∀ c ∈ createSemanticChunks (splitIntoSentences content) title 1200,
      c.length ≤ 1200 ∨ ∃ s ∈ splitIntoSentences content, c.length ≤ 1200 + s.length := by
  have hpre : chunkLegalTextPre content title
      = createSemanticChunks (splitIntoSentences content) title 1200 := by
    rw [chunkLegalTextPre, if_neg (by omega)]
  constructor
  · rw [chunkLegalText, hpre]
    cases h : createSemanticChunks (splitIntoSentences content) title 1200 with
    | nil => simp [h, show (50 : Nat) < content.length by omega]
    | cons d ds => simp [h]
  · intro c hc
    rw [createSemanticChunks] at hc
    rcases semanticAux_bound title 1200 (splitIntoSentences content) (title ++ nl2) c hc with
      h1 | h1 | ⟨s, hs, hb⟩
    · simp [nl2] at h1
      exact Or.inl (by omega)
    · exact Or.inl h1
    · exact Or.inr ⟨s, hs, by omega⟩

set_option maxRecDepth 100000 in
/-- Witness for the amended C8 at the 1250-character single-sentence content. -/
theorem semantic_fallback_amended_witness :
    ((splitBeforeMarkers c8content).length ≤ 1 ∧ 1200 < c8content.length ∧
      (['T'] : List Char).length + 12 ≤ 1200) ∧
    (chunkLegalText c8content ['T'] ≠ [] ∧
      ∀ c ∈ createSemanticChunks (splitIntoSentences c8content) ['T'] 1200,
        c.length ≤ 1200 ∨ ∃ s ∈ splitIntoSentences c8content, c.length ≤ 1200 + s.length) :=
  ⟨⟨by decide, by decide, by decide⟩,
   semantic_fallback_amended c8content ['T'] (by decide) (by decide) (by decide)⟩

/-- C9: when neither chunking strategy produced a chunk and the content is
longer than 50 characters, the chunker emits exactly the one fail-safe chunk:
title joined to content, truncated to the first 2000 characters. -/
theorem failsafe_chunk (content title : List Char)
    (h0 : chunkLegalTextPre content title = []) (h1 : 50 < content.length) :
    chunkLegalText content title = [(title ++ nl2 ++ content).take 2000] := by
  simp [chunkLegalText, h0, h1]

/-- Witness for C9: sixty characters of sub-20-character sentence fragments
produce no structural or semantic chunk, so the fail-safe fires. -/
theorem failsafe_chunk_witness :
    (chunkLegalTextPre c9content "T".data = [] ∧ 50 < c9content.length) ∧
    chunkLegalText c9content "T".data = [("T".data ++ nl2 ++ c9content).take 2000] :=
  ⟨⟨by decide, by decide⟩, failsafe_chunk c9content "T".data (by decide) (by decide)⟩

/-- Coverage invariant of the chunk-window loop: with enough fuel, every
input position from `start` on is inside some emitted window. -/
theorem chunkSpans_cover (size overlap len : Nat) (hov : overlap < size) :
    ∀ (fuel start : Nat), len - start < fuel → ∀ i, start ≤ i → i < len →
      ∃ p ∈ chunkSpansAux size overlap fuel len start, p.1 ≤ i ∧ i < p.2 := by
  intro fuel
  induction fuel with
  | zero => intro start h i h1 h2; omega
  | succ fuel ih =>
    intro start hd i h1 h2
    rw [chunkSpansAux, if_pos ⟨by omega, hov⟩]
    by_cases hb : start + size < len
    · rw [if_pos hb]
      by_cases hi : i < start + size
      · exact ⟨(start, start + size), List.mem_cons_self _ _, h1, hi⟩
      · obtain ⟨p, hp, hp1, hp2⟩ := ih (start + size - overlap) (by omega) i (by omega) h2
        exact ⟨p, List.mem_cons_of_mem _ hp, hp1, hp2⟩
    · rw [if_neg hb]
      exact ⟨(start, len), List.mem_singleton.mpr rfl, h1, h2⟩

/-- The first window emitted from `start` is `(start, min (start + size) len)`. -/
theorem chunkSpans_head (size overlap len : Nat) :
    ∀ (fuel start : Nat), start < len → overlap < size → 0 < fuel →
      ∃ rest, chunkSpansAux size overlap fuel len start
        = (start, min (start + size) len) :: rest := by
  intro fuel start h1 h2 h3
  cases fuel with
  | zero => omega
  | succ fuel =>
    rw [chunkSpansAux, if_pos ⟨h1, h2⟩]
    by_cases hb : start + size < len
    · rw [if_pos hb, min_eq_left (le_of_lt hb)]
      exact ⟨_, rfl⟩
    · rw [if_neg hb, min_eq_right (by omega)]
      exact ⟨[], rfl⟩

/-- Successive windows: each non-final window spans exactly `size` positions,
the next window starts `overlap` positions before it ends, and extends past
its end. -/
theorem chunkSpans_chain (size overlap len : Nat) (hov : overlap < size) :
    ∀ (fuel start : Nat), len - start < fuel →
      List.Chain' (fun p q : Nat × Nat => p.2 = p.1 + size ∧ q.1 + overlap = p.2 ∧ p.2 < q.2)
        (chunkSpansAux size overlap fuel len start) := by
  intro fuel
  induction fuel with
  | zero => intro start _; simp [chunkSpansAux]
  | succ fuel ih =>
    intro start hd
    rw [chunkSpansAux]
    by_cases hg : start < len ∧ overlap < size
    · rw [if_pos hg]
      by_cases hb : start + size < len
      · rw [if_pos hb, List.chain'_cons']
        constructor
        · intro q hq
          obtain ⟨rest, hrest⟩ :=
            chunkSpans_head size overlap len fuel (start + size - overlap) (by omega) hov (by omega)
          rw [hrest] at hq
          simp only [List.head?_cons, Option.mem_some_iff] at hq
          subst hq
          refine ⟨rfl, by omega, ?_⟩
          simp only []
          omega
        · exact ih (start + size - overlap) (by omega)
      · rw [if_neg hb]
        exact List.chain'_singleton _
    · rw [if_neg hg]
      exact List.chain'_nil

/-- C10: `chunkText` with `overlap < size` (in particular at its defaults
1000/200) terminates with one trimmed slice per index window; before
trimming, every character position lies in at least one window; each
non-final window is exactly `size` wide and the next window starts
`size - overlap` later, overlapping its predecessor on exactly `overlap`
positions. -/
theorem chunk_text_coverage_overlap (text : List Char) (size overlap : Nat)
    (hov : overlap < size) :
    chunkText text size overlap
      = (chunkTextSpans text.length size overlap).map (fun p => trim (sliceList text p.1 p.2)) ∧
    (∀ i < text.length, ∃ p ∈ chunkTextSpans text.length size overlap, p.1 ≤ i ∧ i < p.2) ∧
    List.Chain' (fun p q : Nat × Nat => p.2 = p.1 + size ∧ q.1 + overlap = p.2 ∧ p.2 < q.2)
      (chunkTextSpans text.length size overlap) := by
  refine ⟨rfl, ?_, ?_⟩
  · intro i hi
    exact chunkSpans_cover size overlap text.length hov (text.length + 1) 0 (by omega) i
      (Nat.zero_le i) hi
  · exact chunkSpans_chain size overlap text.length hov (text.length + 1) 0 (by omega)

/-- Witness for C10 at the default parameters on a 1500-character text
(two windows: `(0, 1000)` and `(800, 1500)`). -/
theorem chunk_text_coverage_overlap_witness :
    200 < 1000 ∧
    (chunkText (List.replicate 1500 'a') 1000 200
      = (chunkTextSpans (List.replicate 1500 'a').length 1000 200).map
          (fun p => trim (sliceList (List.replicate 1500 'a') p.1 p.2)) ∧
     (∀ i < (List.replicate 1500 'a').length,
        ∃ p ∈ chunkTextSpans (List.replicate 1500 'a').length 1000 200, p.1 ≤ i ∧ i < p.2) ∧
     List.Chain'
       (fun p q : Nat × Nat => p.2 = p.1 + 1000 ∧ q.1 + 200 = p.2 ∧ p.2 < q.2)
       (chunkTextSpans (List.replicate 1500 'a').length 1000 200)) :=
  ⟨by decide, chunk_text_coverage_overlap (List.replicate 1500 'a') 1000 200 (by decide)⟩

/-- C5: similarity search scores every stored embedding, returns results in
descending score order (stably: rows with equal scores keep storage order),
and on the stored vectors `[1,0]`, `[0,1]`, `[1,1]` with query `[1,0]` the
top-1 result is the `[1,0]` row with score 1, the full ranking being
`[1,0]`, then `[1,1]` (score `1/√2`), then `[0,1]` (score 0). -/
theorem similarity_ranking :
    (∀ (q : List ℝ) rows, (scoreRows q rows).length = rows.length) ∧
    (∀ (q : List ℝ) rows limit,
      List.Sorted (fun a b : ScoredRow => b.similarity ≤ a.similarity)
        (findSimilarResources q rows limit)) ∧
    (∀ (q v : List ℝ) (id1 id2 : String) (c1 c2 : List Char),
      (findSimilarResources q [⟨id1, c1, v⟩, ⟨id2, c2, v⟩] 2).map (fun s => s.row)
        = [⟨id1, c1, v⟩, ⟨id2, c2, v⟩]) ∧
    findSimilarResources [1, 0] [rowA, rowB, rowC] 1 = [⟨rowA, 1⟩] ∧
    (findSimilarResources [1, 0] [rowA, rowB, rowC] 3).map (fun s => s.row)
      = [rowA, rowC, rowB] ∧
    (findSimilarResources [1, 0] [rowA, rowB, rowC] 3).map (fun s => s.similarity)
      = [1, (Real.sqrt 2)⁻¹, 0] := by
  have h2pos : (0 : ℝ) < Real.sqrt 2 := Real.sqrt_pos.mpr (by norm_num)
  have hnot : ¬ ((Real.sqrt 2)⁻¹ ≤ (0 : ℝ)) := not_le.mpr (inv_pos.mpr h2pos)
  have hle : (Real.sqrt 2)⁻¹ ≤ (1 : ℝ) := by
    apply inv_le_one_of_one_le₀
    calc (1 : ℝ) = Real.sqrt 1 := Real.sqrt_one.symm
    _ ≤ Real.sqrt 2 := Real.sqrt_le_sqrt (by norm_num)
  have hA : cosineSimilarity [(1 : ℝ), 0] [(1 : ℝ), 0] = 1 := by
    simp [cosineSimilarity]
  have hB : cosineSimilarity [(1 : ℝ), 0] [(0 : ℝ), 1] = 0 := by
    simp [cosineSimilarity]
  have hC : cosineSimilarity [(1 : ℝ), 0] [(1 : ℝ), 1] = (Real.sqrt 2)⁻¹ := by
    simp [cosineSimilarity]
    norm_num [Real.sqrt_one]
  refine ⟨fun q rows => by simp [scoreRows], fun q rows limit => ?_, fun q v id1 id2 c1 c2 => ?_,
    ?_, ?_, ?_⟩
  · haveI : IsTotal ScoredRow (fun a b => b.similarity ≤ a.similarity) :=
      ⟨fun a b => le_total b.similarity a.similarity⟩
    haveI : IsTrans ScoredRow (fun a b => b.similarity ≤ a.similarity) :=
      ⟨fun _ _ _ hab hbc => le_trans hbc hab⟩
    exact List.Pairwise.sublist (List.take_sublist _ _)
      (List.sorted_insertionSort (fun a b : ScoredRow => b.similarity ≤ a.similarity) _)
  · simp [findSimilarResources, scoreRows, List.insertionSort, List.orderedInsert]
  · simp [findSimilarResources, scoreRows, rowA, rowB, rowC, hA, hB, hC,
      List.insertionSort, List.orderedInsert, hnot, hle]
  · simp [findSimilarResources, scoreRows, rowA, rowB, rowC, hA, hB, hC,
      List.insertionSort, List.orderedInsert, hnot, hle]
  · simp [findSimilarResources, scoreRows, rowA, rowB, rowC, hA, hB, hC,
      List.insertionSort, List.orderedInsert, hnot, hle]

end LegalRag
